import Mathlib

/-!
Verification of the STRICT coordination core: room membership registry,
host / zone-host election, the websocket message pipeline (rate limiter,
payload validation), the upgrade-time origin check and the per-address
connection counter.  Definitions are shallow embeddings of the JavaScript
sources (`server.js`, the zone-host utilities, the client game state);
the RoomManager, whose implementation file is absent from the sources,
is modelled from the specification and its test suite.
-/

set_option maxRecDepth 4000

/-- Code-point lexicographic order on character lists, embedding the
ordering induced by `a.localeCompare(b)` as used by the JavaScript
sorts (modelled as plain code-point comparison). -/
def lexLe : List Char → List Char → Bool
  | [], _ => true
  | _ :: _, [] => false
  | a :: as, b :: bs =>
    if a.toNat < b.toNat then true
    else if b.toNat < a.toNat then false
    else lexLe as bs

/-- String comparison used for id ordering (`a.id.localeCompare(b.id)`). -/
def strLe (a b : String) : Bool :=
  lexLe a.data b.data

/-- Membership record of a player in a room: `id`, `username`, the live
connection handle (modelled as a numeric token), current `zone`, and the
optional `character` selector. -/
structure Player where
  id : String
  username : String
  ws : Nat
  zone : String
  character : Option Nat
deriving DecidableEq, Repr

/-- Room state: ordered roster, current host id (or none), game-started
flag, and the zone-session registry (zone id to session handle). -/
structure Room where
  players : List Player
  hostId : Option String
  started : Bool
  zoneSessions : List (String × Nat)
deriving DecidableEq, Repr

/-- Insert a player into an id-sorted list, embedding one step of the
JavaScript `sort((a, b) => a.id.localeCompare(b.id))`. -/
def insertById (p : Player) : List Player → List Player
  | [] => [p]
  | q :: qs => if strLe p.id q.id then p :: q :: qs else q :: insertById p qs

/-- Sort a player list by id, embedding the JavaScript
`players.sort((a, b) => a.id.localeCompare(b.id))`. -/
def sortById : List Player → List Player
  | [] => []
  | p :: ps => insertById p (sortById ps)

/-- The players currently located in `zone`
(`room.players.filter(p => p.zone === zone)`). -/
def zoneOccupants (room : Room) (zone : String) : List Player :=
  room.players.filter (fun p => p.zone == zone)

/-- Embedding of `getZoneHost(room, zone)` from the zone-host utilities:
the main host when it stands in the queried zone, otherwise the head of
the id-sorted list of players in the zone, otherwise none. -/
def getZoneHost (room : Room) (zone : String) : Option Player :=
  if room.players.isEmpty then none
  else
    match room.players.find? (fun p => room.hostId == some p.id) with
    | some host =>
      if host.zone == zone then some host
      else (sortById (zoneOccupants room zone)).head?
    | none => (sortById (zoneOccupants room zone)).head?

example : lexLe "p1".data "p3".data = true := by decide

def roomEx : Room :=
  ⟨[⟨"p9", "host", 9, "hub", none⟩, ⟨"p3", "c", 3, "archive", none⟩,
    ⟨"p1", "a", 1, "archive", none⟩, ⟨"p2", "b", 2, "archive", none⟩],
   some "p9", false, []⟩

example : (getZoneHost roomEx "hub").map Player.id = some "p9" := by decide
example : (getZoneHost roomEx "archive").map Player.id = some "p1" := by decide
example : getZoneHost roomEx "void" = none := by decide

/-- Client-side game state, embedding the fields of `GameState` read by
`updateZoneHostStatus`: the cached `isHost` flag, the local zone id, the
roster snapshot, the cached host id and the local player id. -/
structure ClientState where
  isHost : Bool
  zoneId : Option String
  currentRoomPlayers : List Player
  currentHostId : Option String
  playerId : String
deriving DecidableEq, Repr

/-- The local zone (`this.game.zoneId || 'hub'`): `hub` when the field is
absent or the empty string. -/
def localZoneOf (s : ClientState) : String :=
  match s.zoneId with
  | some z => if z == "" then "hub" else z
  | none => "hub"

/-- The zone of the main host as the client derives it: the zone of the
roster entry whose id equals `currentHostId`, or `hub` when none. -/
def hostZoneOf (s : ClientState) : String :=
  match s.currentRoomPlayers.find? (fun p => s.currentHostId == some p.id) with
  | some hp => hp.zone
  | none => "hub"

/-- Players of the local zone excluding the main host, before sorting
(`filter(p => p.zone === localZone && p.id !== this.currentHostId)`). -/
def zoneHostCandidates (s : ClientState) : List Player :=
  s.currentRoomPlayers.filter
    (fun p => p.zone == localZoneOf s && s.currentHostId != some p.id)

/-- Embedding of `GameState.updateZoneHostStatus`: returns the new value
of `this.game.isZoneHost`.  The main host is never a zone host; when the
main host shares the local zone the flag is false; otherwise the flag is
true exactly when the local player heads the id-sorted candidate list. -/
def updateZoneHostStatus (s : ClientState) : Bool :=
  if s.isHost then false
  else if hostZoneOf s == localZoneOf s then false
  else
    match (sortById (zoneHostCandidates s)).head? with
    | some p => p.id == s.playerId
    | none => false

/-- Generic association-list lookup, embedding `Map.get` / plain-object
indexing: the value of the first pair with the given key. -/
def assocGet {α : Type} (m : List (String × α)) (k : String) : Option α :=
  (m.find? (fun e => e.1 == k)).map (fun e => e.2)

/-- Generic association-list update, embedding `Map.set`: replaces the
first pair with the given key in place, or appends a fresh pair. -/
def assocSet {α : Type} (m : List (String × α)) (k : String) (v : α) :
    List (String × α) :=
  match m with
  | [] => [(k, v)]
  | e :: es => if e.1 == k then (k, v) :: es else e :: assocSet es k v

/-- Generic association-list removal, embedding `Map.delete`: drops the
first pair with the given key. -/
def assocDelete {α : Type} (m : List (String × α)) (k : String) :
    List (String × α) :=
  match m with
  | [] => []
  | e :: es => if e.1 == k then es else e :: assocDelete es k

/-- Modelled from the spec: the fixed maximum party size of a room.
The implementation file `server/rooms.js` is absent from the sources and
the spec leaves the numeric value open; 4 stands in for the fixed bound
(no claim depends on the actual number). -/
def MAX_PARTY_SIZE : Nat := 4

/-- The room registry: room id to room state, in insertion order. -/
abbrev RMState : Type := List (String × Room)

/-- Modelled from the spec: `createRoom(id)` of the missing
`server/rooms.js` creates an empty room with no host, not started and no
sessions (duplicate ids overwrite, one of the two choices the spec
leaves open). -/
def createRoom (rm : RMState) (id : String) : RMState :=
  assocSet rm id ⟨[], none, false, []⟩

/-- Modelled from the spec: `hasRoom(id)` of the missing
`server/rooms.js`. -/
def hasRoom (rm : RMState) (id : String) : Bool :=
  (assocGet rm id).isSome

/-- Modelled from the spec: `addPlayer(roomId, playerRecord)` of the
missing `server/rooms.js`.  Returns the updated registry and the boolean
result: false when the room is absent, full, or already holds the id;
otherwise appends the player and, for the first player, sets the host. -/
def addPlayer (rm : RMState) (roomId : String) (p : Player) :
    RMState × Bool :=
  match assocGet rm roomId with
  | none => (rm, false)
  | some room =>
    if MAX_PARTY_SIZE ≤ room.players.length then (rm, false)
    else if (room.players.map Player.id).contains p.id then (rm, false)
    else
      let room' : Room :=
        { room with
          players := room.players ++ [p]
          hostId := if room.players.isEmpty then some p.id else room.hostId }
      (assocSet rm roomId room', true)

/-- Modelled from the spec: `deleteRoom(roomId)` of the missing
`server/rooms.js` removes the room and calls `shutdown()` on each
registered zone session; the returned list records the session handles
shut down, in registry order. -/
def deleteRoom (rm : RMState) (roomId : String) : RMState × List Nat :=
  match assocGet rm roomId with
  | none => (rm, [])
  | some room => (assocDelete rm roomId, room.zoneSessions.map (fun e => e.2))

/-- Outcome of a removal: the registry afterwards, the returned value
(`none`, or the updated room together with the optional new host id) and
the session handles shut down by an induced room deletion. -/
structure RemoveResult where
  state : RMState
  outcome : Option (Room × Option String)
  shutdowns : List Nat
deriving DecidableEq

/-- Modelled from the spec: the shared body of `removePlayer` and
`removePlayerByWs` of the missing `server/rooms.js`, parameterized by
the predicate locating the player.  Returns `none` when the room or
player is absent; deletes the room (shutting down its sessions) when the
roster empties; reassigns the host to the first remaining roster entry
when the host was removed. -/
def removePlayerBy (rm : RMState) (roomId : String) (pred : Player → Bool) :
    RemoveResult :=
  match assocGet rm roomId with
  | none => ⟨rm, none, []⟩
  | some room =>
    match room.players.find? pred with
    | none => ⟨rm, none, []⟩
    | some pl =>
      let remaining := room.players.eraseP pred
      if h : remaining = [] then
        ⟨assocDelete rm roomId, none, room.zoneSessions.map (fun e => e.2)⟩
      else
        let q := remaining.head h
        if room.hostId == some pl.id then
          let room' : Room := { room with players := remaining, hostId := some q.id }
          ⟨assocSet rm roomId room', some (room', some q.id), []⟩
        else
          let room' : Room := { room with players := remaining }
          ⟨assocSet rm roomId room', some (room', none), []⟩

/-- Modelled from the spec: `removePlayer(roomId, playerId)` of the
missing `server/rooms.js`, locating the player by id. -/
def removePlayer (rm : RMState) (roomId : String) (pid : String) :
    RemoveResult :=
  removePlayerBy rm roomId (fun p => p.id == pid)

/-- Modelled from the spec: `removePlayerByWs(roomId, ws)` of the
missing `server/rooms.js`, locating the player by connection handle. -/
def removePlayerByWs (rm : RMState) (roomId : String) (ws : Nat) :
    RemoveResult :=
  removePlayerBy rm roomId (fun p => p.ws == ws)

/-- One registry operation, for reasoning about reachable states. -/
inductive RMOp where
  | create (id : String)
  | add (roomId : String) (p : Player)
  | remove (roomId : String) (pid : String)
  | removeByWs (roomId : String) (ws : Nat)

/-- Apply one registry operation to the registry state. -/
def applyRMOp (rm : RMState) : RMOp → RMState
  | .create id => createRoom rm id
  | .add roomId p => (addPlayer rm roomId p).1
  | .remove roomId pid => (removePlayer rm roomId pid).state
  | .removeByWs roomId ws => (removePlayerByWs rm roomId ws).state

/-- The registry reached by a sequence of operations from the empty
registry. -/
def runRMOps (ops : List RMOp) : RMState :=
  ops.foldl applyRMOp []

/-- The host invariant of a single room: no host exactly when the roster
is empty, and any host id names a current roster member. -/
def roomWellFormed (room : Room) : Prop :=
  (room.hostId = none ↔ room.players = []) ∧
  ∀ h, room.hostId = some h → h ∈ room.players.map Player.id

instance (room : Room) : Decidable (roomWellFormed room) := by
  unfold roomWellFormed
  infer_instance

/-- The host invariant over every room of the registry. -/
def rmInv (rm : RMState) : Prop :=
  ∀ e ∈ rm, roomWellFormed e.2

example :
    (addPlayer (createRoom [] "r1") "r1" ⟨"p1", "A", 1, "hub", some 1⟩).2 = true := by
  decide

example :
    (removePlayer (addPlayer (createRoom [] "r1") "r1"
      ⟨"p1", "A", 1, "hub", some 1⟩).1 "r1" "p1").state = [] := by
  decide

/-- Abstract JSON value, the possible results of `JSON.parse` on a
frame (numbers abstracted to integers; none of the claims depends on
fractional values). -/
inductive JsValue where
  | null
  | bool (b : Bool)
  | num (q : Int)
  | str (s : String)
  | arr (xs : List JsValue)
  | obj (fields : List (String × JsValue))

/-- JavaScript falsiness of a parsed value (`!data`). -/
def jsFalsy : JsValue → Bool
  | .null => true
  | .bool b => !b
  | .num q => q == 0
  | .str s => s == ""
  | .arr _ => false
  | .obj _ => false

/-- First field of the given name in a parsed object (`data.type`). -/
def getField (fields : List (String × JsValue)) (k : String) : Option JsValue :=
  (fields.find? (fun e => e.1 == k)).map (fun e => e.2)

/-- Embedding of `parseWsPayload(message)` from `server.js`.  A raw
frame is represented by the result of `JSON.parse`: `none` models an
unparseable frame.  The payload is discarded unless it is a truthy
non-array object whose `type` field is a registered message kind; the
result carries the dispatched kind and the object fields. -/
def parseWsPayload (registered : List String) (raw : Option JsValue) :
    Option (String × List (String × JsValue)) :=
  match raw with
  | none => none
  | some v =>
    if jsFalsy v then none
    else
      match v with
      | .obj fields =>
        match getField fields "type" with
        | some (.str t) => if registered.contains t then some (t, fields) else none
        | _ => none
      | _ => none

/-- `WS_RATE_LIMIT_WINDOW_MS` from `server.js`. -/
def WS_RATE_LIMIT_WINDOW_MS : Int := 10000

/-- `WS_RATE_LIMIT_MAX_MESSAGES` from `server.js`. -/
def WS_RATE_LIMIT_MAX_MESSAGES : Nat := 300

/-- Per-connection rate-limit state (`ws.messageCount`, `ws.lastReset`);
timestamps are milliseconds as returned by `Date.now()`. -/
structure ConnState where
  messageCount : Nat
  lastReset : Int
deriving DecidableEq, Repr

/-- Rate-limit state of a freshly accepted connection. -/
def initConn (t0 : Int) : ConnState :=
  ⟨0, t0⟩

/-- Observable effect of one inbound frame: the connection is closed
with policy-violation code 1008, the frame is silently discarded, or the
handler registered for the message kind runs. -/
inductive MsgAction where
  | closePolicy
  | ignored
  | handled (t : String)
deriving DecidableEq, Repr

/-- Embedding of the `ws.on('message')` handler of `server.js`: reset
the window when more than `WS_RATE_LIMIT_WINDOW_MS` elapsed since the
last reset, increment the counter, close with 1008 when the counter
passes the ceiling, and otherwise parse and dispatch the frame. -/
def onMessage (registered : List String) (st : ConnState) (now : Int)
    (raw : Option JsValue) : ConnState × MsgAction :=
  let st1 := if WS_RATE_LIMIT_WINDOW_MS < now - st.lastReset then
    ({ messageCount := 0, lastReset := now } : ConnState) else st
  let st2 : ConnState := { st1 with messageCount := st1.messageCount + 1 }
  if WS_RATE_LIMIT_MAX_MESSAGES < st2.messageCount then (st2, .closePolicy)
  else
    match parseWsPayload registered raw with
    | none => (st2, .ignored)
    | some (t, _) => (st2, .handled t)

/-- Deliver a timed sequence of frames to one connection; delivery stops
at a policy close, since the closed socket receives nothing further. -/
def processRun (registered : List String) (st : ConnState) :
    List (Int × Option JsValue) → ConnState × List MsgAction
  | [] => (st, [])
  | (now, raw) :: rest =>
    match onMessage registered st now raw with
    | (st', .closePolicy) => (st', [.closePolicy])
    | (st', .ignored) =>
      let r := processRun registered st' rest
      (r.1, .ignored :: r.2)
    | (st', .handled t) =>
      let r := processRun registered st' rest
      (r.1, .handled t :: r.2)

/-- The action the pipeline takes on a frame once it is past the rate
limiter: discard, or dispatch to the handler of its kind. -/
def parseAction (registered : List String) (raw : Option JsValue) : MsgAction :=
  match parseWsPayload registered raw with
  | none => .ignored
  | some (t, _) => .handled t

/-- `WS_MAX_CONNECTIONS_PER_IP` from `server.js`. -/
def WS_MAX_CONNECTIONS_PER_IP : Nat := 5

/-- Embedding of `registerWsConnection(ip)` from `server.js`: refuse
once the address holds the ceiling, otherwise increment its count. -/
def registerWsConnection (m : List (String × Nat)) (ip : String) :
    List (String × Nat) × Bool :=
  let count := (assocGet m ip).getD 0
  if WS_MAX_CONNECTIONS_PER_IP ≤ count then (m, false)
  else (assocSet m ip (count + 1), true)

/-- Embedding of `unregisterWsConnection(ip)` from `server.js`: delete
the entry at count one (or absent), otherwise decrement. -/
def unregisterWsConnection (m : List (String × Nat)) (ip : String) :
    List (String × Nat) :=
  let count := (assocGet m ip).getD 0
  if count ≤ 1 then assocDelete m ip
  else assocSet m ip (count - 1)

/-- One operation on the per-address connection map. -/
inductive ConnOp where
  | reg (ip : String)
  | unreg (ip : String)

/-- Apply one connection-map operation. -/
def applyConnOp (m : List (String × Nat)) : ConnOp → List (String × Nat)
  | .reg ip => (registerWsConnection m ip).1
  | .unreg ip => unregisterWsConnection m ip

/-- The connection map reached by a call sequence from the empty map. -/
def runConnOps (ops : List ConnOp) : List (String × Nat) :=
  ops.foldl applyConnOp []

/-- Whitespace test used by the normalization model. -/
def isWsChar (c : Char) : Bool :=
  c == ' ' || c == '\t' || c == '\n' || c == '\r'

/-- Collapse whitespace runs to single spaces, dropping a leading run
when `prevWs` starts true. -/
def collapseWsRuns (prevWs : Bool) : List Char → List Char
  | [] => []
  | c :: cs =>
    if isWsChar c then
      (if prevWs then [] else [' ']) ++ collapseWsRuns true cs
    else c :: collapseWsRuns false cs

/-- Modelled from the spec: `normalizeSafeString` of the missing
`server/validation.js`; per its test suite it trims surrounding
whitespace and collapses internal whitespace runs to one space. -/
def normalizeSafeString (s : String) : String :=
  String.mk (((collapseWsRuns true s.data).reverse.dropWhile
    (fun c => c == ' ')).reverse)

/-- Scheme characters admitted by the WHATWG URL parser. -/
def isSchemeChar (c : Char) : Bool :=
  c.isAlpha || c.isDigit || c == '+' || c == '-' || c == '.'

/-- Split a character list at the first `://`, accumulating the scheme
seen so far (reversed) in `acc`. -/
def splitSchemeSep (acc : List Char) : List Char → Option (List Char × List Char)
  | ':' :: '/' :: '/' :: rest => some (acc.reverse, rest)
  | c :: rest => splitSchemeSep (c :: acc) rest
  | [] => none

/-- ASCII lowercasing, as the URL parser applies to the host. -/
def asciiLower (c : Char) : Char :=
  if 65 ≤ c.toNat && c.toNat ≤ 90 then Char.ofNat (c.toNat + 32) else c

/-- Model of `new URL(origin).host` for origin-shaped inputs: requires a
well-formed scheme followed by `://` and a nonempty authority, which it
returns lowercased up to the first path, query or fragment delimiter;
`none` models the constructor throwing. -/
def parseUrlHost (s : String) : Option String :=
  match splitSchemeSep [] s.data with
  | none => none
  | some (scheme, rest) =>
    match scheme with
    | [] => none
    | c :: cs =>
      if c.isAlpha && cs.all isSchemeChar then
        let host := rest.takeWhile (fun d => !(d == '/' || d == '?' || d == '#'))
        if host = [] then none else some (String.mk (host.map asciiLower))
      else none

/-- Embedding of `isAllowedWsOrigin(origin, request)` from `server.js`,
with the environment origin and the request host header as explicit
inputs.  When an origin is configured the header must equal it exactly;
otherwise the parsed origin host must equal the (nonempty) request
host. -/
def isAllowedWsOrigin (configuredOrigin : String) (origin : String)
    (requestHost : String) : Bool :=
  let cfg := normalizeSafeString configuredOrigin
  if cfg ≠ "" then origin == cfg
  else
    let host := normalizeSafeString requestHost
    if host == "" then false
    else
      match parseUrlHost origin with
      | some h => h == host
      | none => false

/-- Embedding of the origin stage of the `server.on('upgrade')` handler:
true when the upgrade proceeds past the origin check, false when the
socket is answered with 403 Forbidden.  An absent (or empty, hence
falsy) origin header skips the check. -/
def upgradeOriginCheck (configuredOrigin : String) (originHeader : Option String)
    (requestHost : String) : Bool :=
  match originHeader with
  | none => true
  | some o => if o == "" then true else isAllowedWsOrigin configuredOrigin o requestHost

example : normalizeSafeString "  hello  " = "hello" := by decide
example : normalizeSafeString "hello   world" = "hello world" := by decide
example : parseUrlHost "https://MyHost:81/x" = some "myhost:81" := by decide
example : parseUrlHost "nourl" = none := by decide
example :
    (onMessage ["ping"] (initConn 0) 5 (some (.obj [("type", .str "ping")]))).2 =
      .handled "ping" := by decide

/-! ## Order lemmas for the id comparison -/

theorem lexLe_refl (a : List Char) : lexLe a a = true := by
  induction a with
  | nil => rfl
  | cons c cs ih => simp [lexLe, ih]

theorem lexLe_total (a b : List Char) : lexLe a b = true ∨ lexLe b a = true := by
  induction a generalizing b with
  | nil => left; rfl
  | cons c cs ih =>
    cases b with
    | nil => right; rfl
    | cons d ds =>
      rcases Nat.lt_trichotomy c.toNat d.toNat with hlt | heq | hgt
      · left; simp [lexLe, hlt]
      · rcases ih ds with h | h
        · left; simp [lexLe, heq, Nat.lt_irrefl, h]
        · right; simp [lexLe, heq, Nat.lt_irrefl, h]
      · right; simp [lexLe, hgt]

theorem lexLe_trans (a b c : List Char) (hab : lexLe a b = true)
    (hbc : lexLe b c = true) : lexLe a c = true := by
  induction a generalizing b c with
  | nil => rfl
  | cons x xs ih =>
    cases b with
    | nil => simp [lexLe] at hab
    | cons y ys =>
      cases c with
      | nil => simp [lexLe] at hbc
      | cons z zs =>
        simp only [lexLe] at hab hbc ⊢
        split_ifs at hab hbc ⊢ with h1 h2 h3 h4 h5 h6 <;>
          first
            | rfl
            | omega
            | (exact ih ys zs hab hbc)
            | simp_all

theorem lexLe_antisymm (a b : List Char) (hab : lexLe a b = true)
    (hba : lexLe b a = true) : a = b := by
  induction a generalizing b with
  | nil =>
    cases b with
    | nil => rfl
    | cons d ds => simp [lexLe] at hba
  | cons c cs ih =>
    cases b with
    | nil => simp [lexLe] at hab
    | cons d ds =>
      rcases Nat.lt_trichotomy c.toNat d.toNat with hlt | heq | hgt
      · simp [lexLe, hlt, Nat.lt_asymm hlt] at hba
      · have hcd : c = d := by
          have h2 := Char.ofNat_toNat c
          have h3 := Char.ofNat_toNat d
          rw [← h2, ← h3, heq]
        simp only [lexLe, heq, Nat.lt_irrefl, if_false] at hab hba
        rw [hcd, ih ds hab hba]
      · simp [lexLe, hgt, Nat.lt_asymm hgt] at hab

theorem strLe_refl (a : String) : strLe a a = true :=
  lexLe_refl a.data

theorem strLe_total (a b : String) : strLe a b = true ∨ strLe b a = true :=
  lexLe_total a.data b.data

theorem strLe_trans (a b c : String) (hab : strLe a b = true)
    (hbc : strLe b c = true) : strLe a c = true :=
  lexLe_trans a.data b.data c.data hab hbc

theorem strLe_antisymm (a b : String) (hab : strLe a b = true)
    (hba : strLe b a = true) : a = b := by
  cases a with
  | mk da =>
    cases b with
    | mk db =>
      have := lexLe_antisymm da db hab hba
      simp [this]

/-! ## Sorting lemmas -/

theorem mem_insertById (q p : Player) (l : List Player) :
    q ∈ insertById p l ↔ q = p ∨ q ∈ l := by
  induction l with
  | nil => simp [insertById]
  | cons x xs ih =>
    simp only [insertById]
    split_ifs with h
    · simp [List.mem_cons]
    · simp only [List.mem_cons, ih]
      tauto

theorem mem_sortById (q : Player) (l : List Player) :
    q ∈ sortById l ↔ q ∈ l := by
  induction l with
  | nil => simp [sortById]
  | cons x xs ih => simp [sortById, mem_insertById, ih]

theorem sortById_nil_iff (l : List Player) : sortById l = [] ↔ l = [] := by
  induction l with
  | nil => simp [sortById]
  | cons x xs ih =>
    simp only [sortById]
    constructor
    · intro h
      cases hs : sortById xs with
      | nil => rw [hs] at h; simp [insertById] at h
      | cons p t =>
        rw [hs] at h
        simp only [insertById] at h
        split_ifs at h <;> simp at h
    · intro h
      simp at h

theorem sortById_head_min (l : List Player) (p : Player)
    (h : (sortById l).head? = some p) :
    p ∈ l ∧ ∀ q ∈ l, strLe p.id q.id = true := by
  induction l generalizing p with
  | nil => simp [sortById] at h
  | cons x xs ih =>
    simp only [sortById] at h
    cases hs : sortById xs with
    | nil =>
      have hxs : xs = [] := (sortById_nil_iff xs).mp hs
      rw [hs] at h
      simp only [insertById, List.head?] at h
      cases h
      subst hxs
      exact ⟨List.mem_singleton.mpr rfl, by
        intro q hq
        rw [List.mem_singleton] at hq
        rw [hq]
        exact strLe_refl _⟩
    | cons p0 t =>
      have hmin0 := ih p0 (by rw [hs]; rfl)
      rw [hs] at h
      simp only [insertById] at h
      split_ifs at h with hle
      · simp only [List.head?] at h
        cases h
        refine ⟨List.mem_cons_self _ _, ?_⟩
        intro q hq
        rcases List.mem_cons.mp hq with rfl | hq
        · exact strLe_refl _
        · exact strLe_trans _ _ _ hle (hmin0.2 q hq)
      · simp only [List.head?] at h
        cases h
        have hple : strLe p.id x.id = true := by
          rcases strLe_total x.id p.id with htot | htot
          · exact absurd htot hle
          · exact htot
        refine ⟨List.mem_cons_of_mem _ hmin0.1, ?_⟩
        intro q hq
        rcases List.mem_cons.mp hq with rfl | hq
        · exact hple
        · exact hmin0.2 q hq

theorem sortById_head_some (l : List Player) (hne : l ≠ []) :
    ∃ p, (sortById l).head? = some p := by
  cases hs : sortById l with
  | nil => exact absurd ((sortById_nil_iff l).mp hs) hne
  | cons p t => exact ⟨p, rfl⟩

/-! ## Locating the host in a roster -/

theorem find?_host_of_nodup (l : List Player) (h : Player)
    (hnd : (l.map Player.id).Nodup) (hmem : h ∈ l) :
    l.find? (fun p => some h.id == some p.id) = some h := by
  induction l with
  | nil => simp at hmem
  | cons x xs ih =>
    rw [List.map_cons, List.nodup_cons] at hnd
    by_cases hx : h.id = x.id
    · rw [List.find?_cons_of_pos _ (by simp [hx])]
      rcases List.mem_cons.mp hmem with rfl | hmem'
      · rfl
      · exfalso
        apply hnd.1
        rw [← hx]
        exact List.mem_map_of_mem Player.id hmem'
    · rw [List.find?_cons_of_neg _ (by simp [hx])]
      rcases List.mem_cons.mp hmem with rfl | hmem'
      · exact absurd rfl hx
      · exact ih hnd.2 hmem'

/-- Claim C1: for every room and zone, the zone authority computed by
`getZoneHost` is the current host of the room when that host stands in
the queried zone; otherwise a player of the zone whose id is
lexicographically least among the occupants of the zone; and `none` when
no player occupies the zone. -/
theorem getZoneHost_cases (room : Room) (zone : String)
    (hnd : (room.players.map Player.id).Nodup) :
    (zoneOccupants room zone = [] → getZoneHost room zone = none)
    ∧ (∀ h ∈ room.players, room.hostId = some h.id → h.zone = zone →
        getZoneHost room zone = some h)
    ∧ ((∀ h ∈ room.players, room.hostId = some h.id → h.zone ≠ zone) →
        zoneOccupants room zone ≠ [] →
        ∃ p, getZoneHost room zone = some p ∧ p ∈ zoneOccupants room zone ∧
          ∀ q ∈ zoneOccupants room zone, strLe p.id q.id = true) := by
  refine ⟨?_, ?_, ?_⟩
  · intro hocc
    unfold getZoneHost
    cases hemp : room.players.isEmpty
    · simp only [Bool.false_eq_true, if_false]
      cases hfind : room.players.find? (fun p => room.hostId == some p.id) with
      | none => simp [hocc, sortById]
      | some host =>
        cases hz : host.zone == zone
        · simp [hz, hocc, sortById]
        · exfalso
          have hhmem : host ∈ room.players := List.mem_of_find?_eq_some hfind
          have hin : host ∈ zoneOccupants room zone :=
            List.mem_filter.mpr ⟨hhmem, hz⟩
          rw [hocc] at hin
          simp at hin
    · simp
  · intro h hmem hhost hzone
    have hne : room.players ≠ [] := List.ne_nil_of_mem hmem
    unfold getZoneHost
    rw [List.isEmpty_eq_false.mpr hne]
    simp only [Bool.false_eq_true, if_false, hhost]
    rw [find?_host_of_nodup room.players h hnd hmem]
    simp [hzone]
  · intro hnohost hocc
    obtain ⟨p0, hp0⟩ := List.exists_mem_of_ne_nil _ hocc
    have hne : room.players ≠ [] :=
      List.ne_nil_of_mem (List.mem_filter.mp hp0).1
    unfold getZoneHost
    rw [List.isEmpty_eq_false.mpr hne]
    simp only [Bool.false_eq_true, if_false]
    have hocc' : zoneOccupants room zone ≠ [] := hocc
    obtain ⟨p, hp⟩ := sortById_head_some (zoneOccupants room zone) hocc'
    have hmin := sortById_head_min (zoneOccupants room zone) p hp
    cases hfind : room.players.find? (fun p => room.hostId == some p.id) with
    | none => exact ⟨p, hp, hmin.1, hmin.2⟩
    | some host =>
      have hhmem : host ∈ room.players := List.mem_of_find?_eq_some hfind
      have hpred := List.find?_some hfind
      have hhid : room.hostId = some host.id := by
        simpa using hpred
      have hhz : host.zone ≠ zone := hnohost host hhmem hhid
      have hzf : (host.zone == zone) = false := by simp [hhz]
      refine ⟨p, ?_, hmin.1, hmin.2⟩
      simp only [hzf, Bool.false_eq_true, if_false]
      exact hp

/-- Witness for claim C1 at a concrete room: the host `p9` sits in
`hub`, three players occupy `archive`, and the least id there is
`p1`. -/
theorem getZoneHost_cases_witness :
    ((roomEx.players.map Player.id).Nodup) ∧
    ((zoneOccupants roomEx "archive" = [] → getZoneHost roomEx "archive" = none)
     ∧ (∀ h ∈ roomEx.players, roomEx.hostId = some h.id → h.zone = "archive" →
         getZoneHost roomEx "archive" = some h)
     ∧ ((∀ h ∈ roomEx.players, roomEx.hostId = some h.id → h.zone ≠ "archive") →
         zoneOccupants roomEx "archive" ≠ [] →
         ∃ p, getZoneHost roomEx "archive" = some p ∧
           p ∈ zoneOccupants roomEx "archive" ∧
           ∀ q ∈ zoneOccupants roomEx "archive", strLe p.id q.id = true)) :=
  ⟨by decide, getZoneHost_cases roomEx "archive" (by decide)⟩

/-- Claim C9: after `updateZoneHostStatus`, a player flagged as the main
host is never flagged as a zone host; and when the zone of the main host
differs from the local zone, the flag is set exactly when the local
player carries the lexicographically least id among the players of the
local zone other than the main host. -/
theorem updateZoneHostStatus_cases (s : ClientState) :
    (s.isHost = true → updateZoneHostStatus s = false)
    ∧ (s.isHost = false → hostZoneOf s ≠ localZoneOf s →
        (updateZoneHostStatus s = true ↔
          ∃ p ∈ zoneHostCandidates s, p.id = s.playerId ∧
            ∀ q ∈ zoneHostCandidates s, strLe p.id q.id = true)) := by
  constructor
  · intro hh
    unfold updateZoneHostStatus
    simp [hh]
  · intro hh hzz
    unfold updateZoneHostStatus
    have hne : (hostZoneOf s == localZoneOf s) = false := by simp [hzz]
    simp only [hh, hne, Bool.false_eq_true, if_false]
    cases hhead : (sortById (zoneHostCandidates s)).head? with
    | none =>
      have hcand : zoneHostCandidates s = [] := by
        by_contra hc
        obtain ⟨p, hp⟩ := sortById_head_some _ hc
        rw [hhead] at hp
        cases hp
      constructor
      · intro hfalse
        simp at hfalse
      · rintro ⟨p, hp, -⟩
        rw [hcand] at hp
        simp at hp
    | some p0 =>
      have hmin := sortById_head_min _ p0 hhead
      constructor
      · intro htrue
        have hid : p0.id = s.playerId := by simpa using htrue
        exact ⟨p0, hmin.1, hid, hmin.2⟩
      · rintro ⟨q, hq, hqid, hqmin⟩
        have h1 : strLe p0.id q.id = true := hmin.2 q hq
        have h2 : strLe q.id p0.id = true := hqmin p0 hmin.1
        have hpq : p0.id = q.id := strLe_antisymm _ _ h1 h2
        simp [hpq, hqid]

/-! ## Association-list lemmas -/

theorem assocGet_assocSet_self {α : Type} (m : List (String × α)) (k : String)
    (v : α) : assocGet (assocSet m k v) k = some v := by
  induction m with
  | nil => simp [assocSet, assocGet, List.find?]
  | cons e es ih =>
    cases hk : e.1 == k
    · simp only [assocSet, hk, Bool.false_eq_true, if_false]
      simp only [assocGet, List.find?] at ih ⊢
      rw [hk]
      exact ih
    · simp [assocSet, hk, assocGet, List.find?]

theorem assocGet_assocSet_other {α : Type} (m : List (String × α))
    (k k' : String) (v : α) (hkk : k ≠ k') :
    assocGet (assocSet m k v) k' = assocGet m k' := by
  have h1 : (k == k') = false := by simp [hkk]
  induction m with
  | nil =>
    simp only [assocSet, assocGet, List.find?]
    rw [h1]
  | cons e es ih =>
    cases hk : e.1 == k
    · simp only [assocSet, hk, Bool.false_eq_true, if_false]
      simp only [assocGet, List.find?] at ih ⊢
      cases he : e.1 == k'
      · exact ih
      · rfl
    · have hek : e.1 = k := by simpa using hk
      have h2 : (e.1 == k') = false := by simp [hek, hkk]
      simp only [assocSet, hk, if_true]
      simp only [assocGet, List.find?]
      rw [h1, h2]

theorem mem_assocSet {α : Type} (e : String × α) (m : List (String × α))
    (k : String) (v : α) (h : e ∈ assocSet m k v) : e = (k, v) ∨ e ∈ m := by
  induction m with
  | nil =>
    simp [assocSet] at h
    exact Or.inl h
  | cons x xs ih =>
    simp only [assocSet] at h
    split_ifs at h with hx
    · rcases List.mem_cons.mp h with rfl | h
      · exact Or.inl rfl
      · exact Or.inr (List.mem_cons_of_mem _ h)
    · rcases List.mem_cons.mp h with rfl | h
      · exact Or.inr (List.mem_cons_self _ _)
      · rcases ih h with h | h
        · exact Or.inl h
        · exact Or.inr (List.mem_cons_of_mem _ h)

theorem mem_assocDelete {α : Type} (e : String × α) (m : List (String × α))
    (k : String) (h : e ∈ assocDelete m k) : e ∈ m := by
  induction m with
  | nil => simp [assocDelete] at h
  | cons x xs ih =>
    simp only [assocDelete] at h
    split_ifs at h with hx
    · exact List.mem_cons_of_mem _ h
    · rcases List.mem_cons.mp h with rfl | h
      · exact List.mem_cons_self _ _
      · exact List.mem_cons_of_mem _ (ih h)

theorem assocGet_eq_none_of_not_mem {α : Type} (m : List (String × α))
    (k : String) (h : k ∉ m.map Prod.fst) : assocGet m k = none := by
  induction m with
  | nil => rfl
  | cons e es ih =>
    simp only [List.map_cons, List.mem_cons] at h
    push_neg at h
    simp only [assocGet, List.find?]
    have : (e.1 == k) = false := by
      simp
      intro hek
      exact absurd hek.symm h.1
    rw [this]
    exact ih h.2

theorem assocGet_assocDelete_self {α : Type} (m : List (String × α))
    (k : String) (hnd : (m.map Prod.fst).Nodup) :
    assocGet (assocDelete m k) k = none := by
  induction m with
  | nil => rfl
  | cons e es ih =>
    rw [List.map_cons, List.nodup_cons] at hnd
    simp only [assocDelete]
    split_ifs with hk
    · have hek : e.1 = k := by simpa using hk
      apply assocGet_eq_none_of_not_mem
      rw [← hek]
      exact hnd.1
    · simp only [assocGet, List.find?]
      have hf : (e.1 == k) = false := by simpa using hk
      rw [hf]
      exact ih hnd.2

/-! ## Registry invariant machinery -/

theorem assocGet_mem {α : Type} (m : List (String × α)) (k : String) (v : α)
    (h : assocGet m k = some v) : ∃ e ∈ m, e.2 = v := by
  unfold assocGet at h
  cases hf : m.find? (fun e => e.1 == k) with
  | none => rw [hf] at h; cases h
  | some e =>
    rw [hf] at h
    refine ⟨e, List.mem_of_find?_eq_some hf, ?_⟩
    simpa using h

theorem mem_eraseP_of_find? {α : Type} (pred : α → Bool) (l : List α)
    (pl b : α) (hfind : l.find? pred = some pl) (hb : b ∈ l) (hne : b ≠ pl) :
    b ∈ l.eraseP pred := by
  induction l with
  | nil => simp at hb
  | cons x xs ih =>
    cases hx : pred x
    · rw [List.find?_cons_of_neg _ (by simp [hx])] at hfind
      rw [List.eraseP_cons_of_neg (by simp [hx])]
      rcases List.mem_cons.mp hb with rfl | hb
      · exact List.mem_cons_self _ _
      · exact List.mem_cons_of_mem _ (ih hfind hb)
    · rw [List.find?_cons_of_pos _ hx] at hfind
      have hpl : pl = x := by
        injection hfind with hh
        exact hh.symm
      rw [List.eraseP_cons_of_pos hx]
      rcases List.mem_cons.mp hb with rfl | hb
      · exact absurd hpl.symm hne
      · exact hb

theorem roomWellFormed_empty : roomWellFormed ⟨[], none, false, []⟩ := by
  constructor
  · simp
  · intro h hh
    cases hh

theorem rmInv_createRoom (rm : RMState) (id : String) (h : rmInv rm) :
    rmInv (createRoom rm id) := by
  intro e he
  rcases mem_assocSet e rm id _ he with rfl | he
  · exact roomWellFormed_empty
  · exact h e he

theorem roomWellFormed_addPlayer (room : Room) (p : Player)
    (hwf : roomWellFormed room) :
    roomWellFormed
      { room with
        players := room.players ++ [p]
        hostId := if room.players.isEmpty then some p.id else room.hostId } := by
  cases hemp : room.players.isEmpty
  · have hne : room.players ≠ [] := List.isEmpty_eq_false.mp hemp
    constructor
    · simp only [hemp, Bool.false_eq_true, if_false]
      constructor
      · intro hh
        exact absurd ((hwf.1).mp hh) hne
      · intro hh
        simp at hh
    · intro hid hh
      simp only [hemp, Bool.false_eq_true, if_false] at hh
      have := hwf.2 hid hh
      simp only [List.map_append, List.mem_append]
      exact Or.inl this
  · have hnil : room.players = [] := List.isEmpty_iff.mp hemp
    constructor
    · simp [hemp, hnil]
    · intro hid hh
      simp only [hemp, if_true] at hh
      injection hh with hh
      simp [hnil, ← hh]

theorem rmInv_addPlayer (rm : RMState) (roomId : String) (p : Player)
    (h : rmInv rm) : rmInv (addPlayer rm roomId p).1 := by
  unfold addPlayer
  cases hget : assocGet rm roomId with
  | none => exact h
  | some room =>
    dsimp only
    by_cases h1 : MAX_PARTY_SIZE ≤ room.players.length
    · rw [if_pos h1]
      exact h
    · rw [if_neg h1]
      cases h2 : (room.players.map Player.id).contains p.id
      · rw [if_neg (by simp)]
        intro e he
        rcases mem_assocSet e rm roomId _ he with rfl | he
        · obtain ⟨e0, he0, hv⟩ := assocGet_mem rm roomId room hget
          exact roomWellFormed_addPlayer room p (hv ▸ h e0 he0)
        · exact h e he
      · rw [if_pos rfl]
        exact h

theorem roomWellFormed_newHost (room : Room) (rem : List Player)
    (hne : rem ≠ []) :
    roomWellFormed
      { room with players := rem, hostId := some ((rem.head hne).id) } := by
  refine ⟨⟨fun hc => ?_, fun hc => ?_⟩, fun hid hh => ?_⟩
  · exact Option.noConfusion hc
  · exact absurd hc hne
  · have hh2 : some ((rem.head hne).id) = some hid := hh
    injection hh2 with hh2
    subst hh2
    exact List.mem_map.mpr ⟨_, List.head_mem hne, rfl⟩

theorem roomWellFormed_erase (room : Room) (pred : Player → Bool) (pl : Player)
    (hwf : roomWellFormed room) (hfind : room.players.find? pred = some pl)
    (hhostne : room.hostId ≠ some pl.id)
    (hrem : room.players.eraseP pred ≠ []) :
    roomWellFormed { room with players := room.players.eraseP pred } := by
  have hplmem : pl ∈ room.players := List.mem_of_find?_eq_some hfind
  have hne : room.players ≠ [] := List.ne_nil_of_mem hplmem
  obtain ⟨hid, hhid⟩ : ∃ hid, room.hostId = some hid := by
    cases hh : room.hostId with
    | none => exact absurd ((hwf.1).mp hh) hne
    | some hid => exact ⟨hid, rfl⟩
  refine ⟨⟨fun hc => ?_, fun hc => ?_⟩, fun hid2 hh2 => ?_⟩
  · have hc2 : room.hostId = none := hc
    rw [hhid] at hc2
    cases hc2
  · exact absurd hc hrem
  · have hh3 : room.hostId = some hid2 := hh2
    rw [hhid] at hh3
    injection hh3 with hh3
    subst hh3
    have hmem := hwf.2 hid hhid
    obtain ⟨hp, hhp, hhpid⟩ := List.mem_map.mp hmem
    have hhpne : hp ≠ pl := by
      intro hc
      apply hhostne
      rw [hhid, ← hhpid, hc]
    show hid ∈ (room.players.eraseP pred).map Player.id
    exact List.mem_map.mpr
      ⟨hp, mem_eraseP_of_find? pred room.players pl hp hfind hhp hhpne, hhpid⟩

theorem rmInv_removePlayerBy (rm : RMState) (roomId : String)
    (pred : Player → Bool) (h : rmInv rm) :
    rmInv (removePlayerBy rm roomId pred).state := by
  unfold removePlayerBy
  cases hget : assocGet rm roomId with
  | none => exact h
  | some room =>
    dsimp only
    cases hfind : room.players.find? pred with
    | none => exact h
    | some pl =>
      dsimp only
      have hwf : roomWellFormed room := by
        obtain ⟨e0, he0, hv⟩ := assocGet_mem rm roomId room hget
        exact hv ▸ h e0 he0
      by_cases hrem : room.players.eraseP pred = []
      · rw [dif_pos hrem]
        intro e he
        exact h e (mem_assocDelete e rm roomId he)
      · rw [dif_neg hrem]
        cases hhost : room.hostId == some pl.id
        · rw [if_neg (by simp)]
          intro e he
          rcases mem_assocSet e rm roomId _ he with rfl | he
          · have hhostne : room.hostId ≠ some pl.id := by
              intro hc
              rw [hc] at hhost
              simp at hhost
            exact roomWellFormed_erase room pred pl hwf hfind hhostne hrem
          · exact h e he
        · rw [if_pos rfl]
          intro e he
          rcases mem_assocSet e rm roomId _ he with rfl | he
          · exact roomWellFormed_newHost room _ hrem
          · exact h e he

theorem rmInv_applyRMOp (rm : RMState) (op : RMOp) (h : rmInv rm) :
    rmInv (applyRMOp rm op) := by
  cases op with
  | create id => exact rmInv_createRoom rm id h
  | add roomId p => exact rmInv_addPlayer rm roomId p h
  | remove roomId pid => exact rmInv_removePlayerBy rm roomId _ h
  | removeByWs roomId ws => exact rmInv_removePlayerBy rm roomId _ h

theorem rmInv_foldl (ops : List RMOp) (rm : RMState) (h : rmInv rm) :
    rmInv (ops.foldl applyRMOp rm) := by
  induction ops generalizing rm with
  | nil => exact h
  | cons op rest ih => exact ih _ (rmInv_applyRMOp rm op h)

/-- Claim C3: in every registry state reachable by `createRoom`,
`addPlayer`, `removePlayer` and `removePlayerByWs` from the empty
registry, a room has no host exactly when its roster is empty, and an
assigned host id always names a player currently on the roster. -/
theorem rm_host_invariant (ops : List RMOp) (rm : RMState)
    (h : rm = runRMOps ops) :
    ∀ e ∈ rm, (e.2.hostId = none ↔ e.2.players = []) ∧
      ∀ hid, e.2.hostId = some hid → hid ∈ e.2.players.map Player.id := by
  subst h
  exact rmInv_foldl ops [] (by intro e he; simp at he)

def opsEx : List RMOp :=
  [.create "r1", .add "r1" ⟨"p1", "A", 1, "hub", some 1⟩,
   .add "r1" ⟨"p2", "B", 2, "hub", some 2⟩, .remove "r1" "p1",
   .create "r2", .add "r2" ⟨"p3", "C", 3, "hub", none⟩,
   .removeByWs "r2" 3]

/-- Witness for claim C3 on a concrete operation sequence that creates
two rooms, rotates the host of one and empties the other. -/
theorem rm_host_invariant_witness :
    (runRMOps opsEx = runRMOps opsEx) ∧
    ∀ e ∈ runRMOps opsEx, (e.2.hostId = none ↔ e.2.players = []) ∧
      ∀ hid, e.2.hostId = some hid → hid ∈ e.2.players.map Player.id :=
  ⟨rfl, rm_host_invariant opsEx (runRMOps opsEx) rfl⟩

/-- Claim C5: `addPlayer` returns false exactly when the room does not
exist, the room is at the maximum party size, or the roster already
holds the id; every failure leaves the registry unchanged; success
appends the player to the end of the roster and, when it is the first
player, makes it the host. -/
theorem addPlayer_cases (rm : RMState) (roomId : String) (p : Player) :
    ((addPlayer rm roomId p).2 = false ↔
      assocGet rm roomId = none ∨
      ∃ room, assocGet rm roomId = some room ∧
        (MAX_PARTY_SIZE ≤ room.players.length ∨
          p.id ∈ room.players.map Player.id))
    ∧ ((addPlayer rm roomId p).2 = false → (addPlayer rm roomId p).1 = rm)
    ∧ (∀ room, assocGet rm roomId = some room →
        (addPlayer rm roomId p).2 = true →
        ∃ room', assocGet (addPlayer rm roomId p).1 roomId = some room' ∧
          room'.players = room.players ++ [p] ∧
          (room.players = [] → room'.hostId = some p.id)) := by
  unfold addPlayer
  cases hget : assocGet rm roomId with
  | none =>
    refine ⟨by simp, fun _ => rfl, ?_⟩
    intro room hroom
    cases hroom
  | some room0 =>
    dsimp only
    by_cases h1 : MAX_PARTY_SIZE ≤ room0.players.length
    · rw [if_pos h1]
      refine ⟨?_, fun _ => rfl, ?_⟩
      · constructor
        · intro _
          exact Or.inr ⟨room0, rfl, Or.inl h1⟩
        · intro _
          rfl
      · intro room hroom htrue
        simp at htrue
    · rw [if_neg h1]
      cases h2 : (room0.players.map Player.id).contains p.id
      · rw [if_neg (by simp)]
        have h2' : p.id ∉ room0.players.map Player.id := by simpa using h2
        refine ⟨?_, ?_, ?_⟩
        · constructor
          · intro hc
            simp at hc
          · rintro (hc | ⟨room, hrr, hcase⟩)
            · cases hc
            · injection hrr with hrr
              subst hrr
              rcases hcase with hc | hc
              · exact absurd hc h1
              · exact absurd hc h2'
        · intro hc
          simp at hc
        · intro room hroom _
          injection hroom with hroom
          subst hroom
          refine ⟨_, assocGet_assocSet_self rm roomId _, rfl, ?_⟩
          intro hempty
          simp [hempty]
      · rw [if_pos rfl]
        have h2' : p.id ∈ room0.players.map Player.id := by simpa using h2
        refine ⟨?_, fun _ => rfl, ?_⟩
        · constructor
          · intro _
            exact Or.inr ⟨room0, rfl, Or.inr h2'⟩
          · intro _
            rfl
        · intro room hroom htrue
          simp at htrue

theorem find?_id_of_mem (l : List Player) (pid : String)
    (h : pid ∈ l.map Player.id) :
    ∃ pl, l.find? (fun p => p.id == pid) = some pl ∧ pl.id = pid := by
  obtain ⟨p0, hp0, hid0⟩ := List.mem_map.mp h
  have hsome : (l.find? (fun p => p.id == pid)).isSome = true :=
    List.find?_isSome.mpr ⟨p0, hp0, by simp [hid0]⟩
  cases hf : l.find? (fun p => p.id == pid) with
  | none => rw [hf] at hsome; cases hsome
  | some pl =>
    refine ⟨pl, rfl, ?_⟩
    have := List.find?_some hf
    simpa using this

/-- Claim C2: in a room of at least two players, removing the current
host hands the host role to the first remaining roster entry and
returns that id as `newHostId`; removing a non-host player keeps the
host and returns `newHostId = none`. -/
theorem removePlayer_host_succession (rm : RMState) (roomId : String)
    (room : Room) (hget : assocGet rm roomId = some room)
    (hlen : 2 ≤ room.players.length) :
    (∀ hid, room.hostId = some hid → hid ∈ room.players.map Player.id →
      ∃ q, (room.players.eraseP (fun p => p.id == hid)).head? = some q ∧
        (removePlayer rm roomId hid).outcome =
          some ({ room with
                  players := room.players.eraseP (fun p => p.id == hid),
                  hostId := some q.id }, some q.id))
    ∧ (∀ pid, pid ∈ room.players.map Player.id → room.hostId ≠ some pid →
        ∃ room', (removePlayer rm roomId pid).outcome = some (room', none) ∧
          room'.hostId = room.hostId ∧
          room'.players = room.players.eraseP (fun p => p.id == pid)) := by
  constructor
  · intro hid hhost hmem
    obtain ⟨pl, hfind, hplid⟩ := find?_id_of_mem room.players hid hmem
    have hrem : room.players.eraseP (fun p => p.id == hid) ≠ [] := by
      have hlenrem := List.length_eraseP_of_mem
        (List.mem_of_find?_eq_some hfind) (List.find?_some hfind)
      intro hc
      rw [hc] at hlenrem
      simp at hlenrem
      omega
    unfold removePlayer removePlayerBy
    rw [hget]
    dsimp only
    rw [hfind]
    dsimp only
    rw [dif_neg hrem]
    have hbeq : (room.hostId == some pl.id) = true := by
      simp [hhost, hplid]
    rw [if_pos (by rw [hbeq])]
    exact ⟨_, (List.head?_eq_head hrem).symm ▸ List.head?_eq_head hrem, rfl⟩
  · intro pid hmem hhostne
    obtain ⟨pl, hfind, hplid⟩ := find?_id_of_mem room.players pid hmem
    have hrem : room.players.eraseP (fun p => p.id == pid) ≠ [] := by
      have hlenrem := List.length_eraseP_of_mem
        (List.mem_of_find?_eq_some hfind) (List.find?_some hfind)
      intro hc
      rw [hc] at hlenrem
      simp at hlenrem
      omega
    unfold removePlayer removePlayerBy
    rw [hget]
    dsimp only
    rw [hfind]
    dsimp only
    rw [dif_neg hrem]
    have hbeq : (room.hostId == some pl.id) = false := by
      rw [hplid]
      simp [hhostne]
    rw [if_neg (by rw [hbeq]; simp)]
    exact ⟨_, rfl, rfl, rfl⟩

def rmEx2 : RMState :=
  [("r1", ⟨[⟨"pA", "A", 1, "hub", some 1⟩, ⟨"pB", "B", 2, "hub", some 2⟩,
            ⟨"pC", "C", 3, "hub", some 3⟩], some "pA", false, []⟩)]

/-- Witness for claim C2 on a three-player room hosted by the first
joiner. -/
theorem removePlayer_host_succession_witness :
    (assocGet rmEx2 "r1" = some ⟨[⟨"pA", "A", 1, "hub", some 1⟩,
        ⟨"pB", "B", 2, "hub", some 2⟩, ⟨"pC", "C", 3, "hub", some 3⟩],
        some "pA", false, []⟩) ∧
    (2 ≤ (⟨[⟨"pA", "A", 1, "hub", some 1⟩, ⟨"pB", "B", 2, "hub", some 2⟩,
        ⟨"pC", "C", 3, "hub", some 3⟩], some "pA", false, []⟩ : Room).players.length) ∧
    ((∀ hid, (⟨[⟨"pA", "A", 1, "hub", some 1⟩, ⟨"pB", "B", 2, "hub", some 2⟩,
          ⟨"pC", "C", 3, "hub", some 3⟩], some "pA", false, []⟩ : Room).hostId = some hid →
        hid ∈ (⟨[⟨"pA", "A", 1, "hub", some 1⟩, ⟨"pB", "B", 2, "hub", some 2⟩,
          ⟨"pC", "C", 3, "hub", some 3⟩], some "pA", false, []⟩ : Room).players.map Player.id →
        ∃ q, ((⟨[⟨"pA", "A", 1, "hub", some 1⟩, ⟨"pB", "B", 2, "hub", some 2⟩,
            ⟨"pC", "C", 3, "hub", some 3⟩], some "pA", false, []⟩ : Room).players.eraseP
              (fun p => p.id == hid)).head? = some q ∧
          (removePlayer rmEx2 "r1" hid).outcome =
            some ({ (⟨[⟨"pA", "A", 1, "hub", some 1⟩, ⟨"pB", "B", 2, "hub", some 2⟩,
                ⟨"pC", "C", 3, "hub", some 3⟩], some "pA", false, []⟩ : Room) with
                players := (⟨[⟨"pA", "A", 1, "hub", some 1⟩, ⟨"pB", "B", 2, "hub", some 2⟩,
                  ⟨"pC", "C", 3, "hub", some 3⟩], some "pA", false, []⟩ : Room).players.eraseP
                    (fun p => p.id == hid),
                hostId := some q.id }, some q.id))
     ∧ (∀ pid, pid ∈ (⟨[⟨"pA", "A", 1, "hub", some 1⟩, ⟨"pB", "B", 2, "hub", some 2⟩,
          ⟨"pC", "C", 3, "hub", some 3⟩], some "pA", false, []⟩ : Room).players.map Player.id →
        (⟨[⟨"pA", "A", 1, "hub", some 1⟩, ⟨"pB", "B", 2, "hub", some 2⟩,
          ⟨"pC", "C", 3, "hub", some 3⟩], some "pA", false, []⟩ : Room).hostId ≠ some pid →
        ∃ room', (removePlayer rmEx2 "r1" pid).outcome = some (room', none) ∧
          room'.hostId = (⟨[⟨"pA", "A", 1, "hub", some 1⟩, ⟨"pB", "B", 2, "hub", some 2⟩,
            ⟨"pC", "C", 3, "hub", some 3⟩], some "pA", false, []⟩ : Room).hostId ∧
          room'.players = (⟨[⟨"pA", "A", 1, "hub", some 1⟩, ⟨"pB", "B", 2, "hub", some 2⟩,
            ⟨"pC", "C", 3, "hub", some 3⟩], some "pA", false, []⟩ : Room).players.eraseP
              (fun p => p.id == pid))) :=
  ⟨by decide, by decide,
    removePlayer_host_succession rmEx2 "r1" _ (by decide) (by decide)⟩

/-- Claim C4: removing the last player of a room returns `none` and
deletes the room, and deleting a room — directly or through last-player
removal — shuts down each registered zone session exactly once. -/
theorem roomDeletion_shutdown (rm : RMState) (roomId : String) (room : Room)
    (hget : assocGet rm roomId = some room)
    (hkeys : (rm.map Prod.fst).Nodup) :
    (∀ p, room.players = [p] →
      removePlayer rm roomId p.id =
        ⟨assocDelete rm roomId, none, room.zoneSessions.map (fun e => e.2)⟩ ∧
      hasRoom (removePlayer rm roomId p.id).state roomId = false)
    ∧ (deleteRoom rm roomId =
        (assocDelete rm roomId, room.zoneSessions.map (fun e => e.2))
       ∧ hasRoom (deleteRoom rm roomId).1 roomId = false
       ∧ ((room.zoneSessions.map (fun e => e.2)).Nodup →
           ∀ s ∈ room.zoneSessions,
             ((deleteRoom rm roomId).2.count s.2) = 1)) := by
  have hdel : assocGet (assocDelete rm roomId) roomId = none :=
    assocGet_assocDelete_self rm roomId hkeys
  constructor
  · intro p hp
    have heq : removePlayer rm roomId p.id =
        ⟨assocDelete rm roomId, none, room.zoneSessions.map (fun e => e.2)⟩ := by
      unfold removePlayer removePlayerBy
      rw [hget]
      dsimp only
      rw [hp]
      rw [List.find?_cons_of_pos _ (by simp)]
      dsimp only
      rw [dif_pos (by rw [List.eraseP_cons_of_pos (by simp)])]
    refine ⟨heq, ?_⟩
    rw [heq]
    unfold hasRoom
    dsimp only
    rw [hdel]
    rfl
  · have hdelroom : deleteRoom rm roomId =
        (assocDelete rm roomId, room.zoneSessions.map (fun e => e.2)) := by
      unfold deleteRoom
      rw [hget]
    refine ⟨hdelroom, ?_, ?_⟩
    · rw [hdelroom]
      unfold hasRoom
      dsimp only
      rw [hdel]
      rfl
    · intro hndv s hs
      rw [hdelroom]
      dsimp only
      exact List.count_eq_one_of_mem hndv (List.mem_map.mpr ⟨s, hs, rfl⟩)

def rmEx3 : RMState :=
  [("r1", ⟨[⟨"pA", "A", 1, "hub", some 1⟩], some "pA", false,
    [("hub", 11), ("archive", 12)]⟩),
   ("r2", ⟨[⟨"pB", "B", 2, "hub", some 2⟩], some "pB", false, []⟩)]

def roomEx3 : Room :=
  ⟨[⟨"pA", "A", 1, "hub", some 1⟩], some "pA", false,
   [("hub", 11), ("archive", 12)]⟩

/-- Witness for claim C4 on a registry holding a one-player room with
two zone sessions. -/
theorem roomDeletion_shutdown_witness :
    (assocGet rmEx3 "r1" = some roomEx3) ∧
    ((rmEx3.map Prod.fst).Nodup) ∧
    ((∀ p, roomEx3.players = [p] →
      removePlayer rmEx3 "r1" p.id =
        ⟨assocDelete rmEx3 "r1", none, roomEx3.zoneSessions.map (fun e => e.2)⟩ ∧
      hasRoom (removePlayer rmEx3 "r1" p.id).state "r1" = false)
    ∧ (deleteRoom rmEx3 "r1" =
        (assocDelete rmEx3 "r1", roomEx3.zoneSessions.map (fun e => e.2))
       ∧ hasRoom (deleteRoom rmEx3 "r1").1 "r1" = false
       ∧ ((roomEx3.zoneSessions.map (fun e => e.2)).Nodup →
           ∀ s ∈ roomEx3.zoneSessions,
             ((deleteRoom rmEx3 "r1").2.count s.2) = 1))) :=
  ⟨by decide, by decide,
    roomDeletion_shutdown rmEx3 "r1" roomEx3 (by decide) (by decide)⟩

/-! ## Rate limiter lemmas -/

theorem parseAction_ne_close (registered : List String) (raw : Option JsValue) :
    parseAction registered raw ≠ MsgAction.closePolicy := by
  unfold parseAction
  cases hp : parseWsPayload registered raw with
  | none => simp
  | some v => simp

theorem onMessage_no_reset (registered : List String) (c : Nat) (t0 now : Int)
    (raw : Option JsValue) (hnow : now - t0 ≤ WS_RATE_LIMIT_WINDOW_MS)
    (hc : c + 1 ≤ WS_RATE_LIMIT_MAX_MESSAGES) :
    onMessage registered ⟨c, t0⟩ now raw = (⟨c + 1, t0⟩, parseAction registered raw) := by
  have h1 : ¬ (WS_RATE_LIMIT_WINDOW_MS < now - t0) := not_lt.mpr hnow
  have h2 : ¬ (WS_RATE_LIMIT_MAX_MESSAGES < c + 1) := not_lt.mpr hc
  simp only [onMessage, parseAction, if_neg h1, if_neg h2]
  cases hp : parseWsPayload registered raw with
  | none => rfl
  | some v => rfl

theorem onMessage_close (registered : List String) (c : Nat) (t0 now : Int)
    (raw : Option JsValue) (hnow : now - t0 ≤ WS_RATE_LIMIT_WINDOW_MS)
    (hc : WS_RATE_LIMIT_MAX_MESSAGES < c + 1) :
    onMessage registered ⟨c, t0⟩ now raw = (⟨c + 1, t0⟩, MsgAction.closePolicy) := by
  have h1 : ¬ (WS_RATE_LIMIT_WINDOW_MS < now - t0) := not_lt.mpr hnow
  simp only [onMessage, if_neg h1, if_pos hc]

theorem processRun_within (registered : List String) (t0 : Int)
    (msgs : List (Int × Option JsValue)) (c : Nat)
    (htime : ∀ m ∈ msgs, m.1 - t0 ≤ WS_RATE_LIMIT_WINDOW_MS)
    (hc : c + msgs.length ≤ WS_RATE_LIMIT_MAX_MESSAGES) :
    processRun registered ⟨c, t0⟩ msgs =
      (⟨c + msgs.length, t0⟩, msgs.map (fun m => parseAction registered m.2)) := by
  induction msgs generalizing c with
  | nil => simp [processRun]
  | cons m rest ih =>
    obtain ⟨now, raw⟩ := m
    have hnow : now - t0 ≤ WS_RATE_LIMIT_WINDOW_MS :=
      htime (now, raw) (List.mem_cons_self _ _)
    have hcount : c + 1 ≤ WS_RATE_LIMIT_MAX_MESSAGES := by
      simp only [List.length_cons] at hc
      omega
    have hstep := onMessage_no_reset registered c t0 now raw hnow hcount
    have hrec := ih (c + 1)
      (fun m hm => htime m (List.mem_cons_of_mem _ hm))
      (by simp only [List.length_cons] at hc; omega)
    simp only [processRun, hstep]
    cases hp : parseAction registered raw with
    | closePolicy => exact absurd hp (parseAction_ne_close registered raw)
    | ignored =>
      simp only [hrec, List.map_cons, List.length_cons]
      rw [hp]
      have harith : c + 1 + rest.length = c + (rest.length + 1) := by omega
      rw [harith]
    | handled t =>
      simp only [hrec, List.map_cons, List.length_cons]
      rw [hp]
      have harith : c + 1 + rest.length = c + (rest.length + 1) := by omega
      rw [harith]

theorem processRun_append (registered : List String) (st : ConnState)
    (msgs rest : List (Int × Option JsValue))
    (h : MsgAction.closePolicy ∉ (processRun registered st msgs).2) :
    processRun registered st (msgs ++ rest) =
      ((processRun registered (processRun registered st msgs).1 rest).1,
        (processRun registered st msgs).2 ++
          (processRun registered (processRun registered st msgs).1 rest).2) := by
  induction msgs generalizing st with
  | nil => simp [processRun]
  | cons m ms ih =>
    obtain ⟨now, raw⟩ := m
    cases ha : onMessage registered st now raw with
    | mk st' a =>
      cases a with
      | closePolicy =>
        exfalso
        apply h
        simp only [processRun, ha]
        exact List.mem_singleton.mpr rfl
      | ignored =>
        simp only [processRun, ha, List.cons_append] at h ⊢
        have h' : MsgAction.closePolicy ∉ (processRun registered st' ms).2 := by
          intro hmem
          exact h (List.mem_cons_of_mem _ hmem)
        simp only [List.append_eq]
        rw [ih st' h']
      | handled t =>
        simp only [processRun, ha, List.cons_append] at h ⊢
        have h' : MsgAction.closePolicy ∉ (processRun registered st' ms).2 := by
          intro hmem
          exact h (List.mem_cons_of_mem _ hmem)
        simp only [List.append_eq]
        rw [ih st' h']

/-- Claim C6: while at most the ceiling of 300 messages arrive within
one 10000 ms rate-limit window, every message reaches the parse and
dispatch stage and the connection stays open; the first message pushing
the in-window count past the ceiling is answered by a policy close
(code 1008) instead of being dispatched, and nothing after it is
processed. -/
theorem wsRateLimit_cases (registered : List String) (t0 : Int)
    (msgs : List (Int × Option JsValue))
    (htime : ∀ m ∈ msgs, m.1 - t0 ≤ WS_RATE_LIMIT_WINDOW_MS) :
    (msgs.length ≤ WS_RATE_LIMIT_MAX_MESSAGES →
      (processRun registered (initConn t0) msgs).2 =
        msgs.map (fun m => parseAction registered m.2) ∧
      MsgAction.closePolicy ∉ (processRun registered (initConn t0) msgs).2)
    ∧ (∀ extra : Int × Option JsValue,
        msgs.length = WS_RATE_LIMIT_MAX_MESSAGES →
        extra.1 - t0 ≤ WS_RATE_LIMIT_WINDOW_MS →
        (processRun registered (initConn t0) (msgs ++ [extra])).2 =
          msgs.map (fun m => parseAction registered m.2) ++
            [MsgAction.closePolicy]) := by
  have h0 : initConn t0 = (⟨0, t0⟩ : ConnState) := rfl
  constructor
  · intro hlen
    have hrun := processRun_within registered t0 msgs 0 htime (by omega)
    rw [h0, hrun]
    refine ⟨rfl, ?_⟩
    intro hmem
    obtain ⟨m, _, hm⟩ := List.mem_map.mp hmem
    exact parseAction_ne_close registered m.2 hm
  · intro extra hlen hextra
    obtain ⟨te, re⟩ := extra
    have hrun := processRun_within registered t0 msgs 0 htime (by omega)
    have hno : MsgAction.closePolicy ∉ (processRun registered (initConn t0) msgs).2 := by
      rw [h0, hrun]
      intro hmem
      obtain ⟨m, _, hm⟩ := List.mem_map.mp hmem
      exact parseAction_ne_close registered m.2 hm
    rw [processRun_append registered (initConn t0) msgs [(te, re)] hno]
    rw [h0, hrun]
    have hclose := onMessage_close registered (0 + msgs.length) t0 te re hextra
      (by omega)
    simp only [processRun, hclose]

def msgsEx300 : List (Int × Option JsValue) := List.replicate 300 (0, none)

/-- Witness for claim C6 on a burst of 300 frames at one instant. -/
theorem wsRateLimit_cases_witness :
    (∀ m ∈ msgsEx300, m.1 - 0 ≤ WS_RATE_LIMIT_WINDOW_MS) ∧
    ((msgsEx300.length ≤ WS_RATE_LIMIT_MAX_MESSAGES →
      (processRun ["join_room"] (initConn 0) msgsEx300).2 =
        msgsEx300.map (fun m => parseAction ["join_room"] m.2) ∧
      MsgAction.closePolicy ∉ (processRun ["join_room"] (initConn 0) msgsEx300).2)
    ∧ (∀ extra : Int × Option JsValue,
        msgsEx300.length = WS_RATE_LIMIT_MAX_MESSAGES →
        extra.1 - 0 ≤ WS_RATE_LIMIT_WINDOW_MS →
        (processRun ["join_room"] (initConn 0) (msgsEx300 ++ [extra])).2 =
          msgsEx300.map (fun m => parseAction ["join_room"] m.2) ++
            [MsgAction.closePolicy])) :=
  ⟨by decide, wsRateLimit_cases ["join_room"] 0 msgsEx300 (by decide)⟩

/-- Counterexample to claim C7: an unparseable frame is discarded (the
action is `ignored`, nothing is dispatched), yet the in-window message
count still rises from 0 to 1. -/
theorem rateCounter_counts_discarded :
    parseWsPayload [] (none : Option JsValue) = none ∧
    (onMessage [] (initConn 0) 0 none).2 = MsgAction.ignored ∧
    (initConn 0).messageCount = 0 ∧
    (onMessage [] (initConn 0) 0 none).1.messageCount = 1 :=
  ⟨rfl, rfl, rfl, rfl⟩

/-- Claim C7 as amended: the per-connection counter counts every
received frame — after any window reset, each frame adds one to the
count whether it is dispatched, discarded, or triggers the policy
close. -/
theorem rateCounter_counts_all (registered : List String) (st : ConnState)
    (now : Int) (raw : Option JsValue) :
    (onMessage registered st now raw).1.messageCount =
      (if WS_RATE_LIMIT_WINDOW_MS < now - st.lastReset then 0
        else st.messageCount) + 1 := by
  unfold onMessage
  dsimp only
  split_ifs with h1 h2 h3 <;>
    first
      | rfl
      | (cases hp : parseWsPayload registered raw <;> rfl)

/-- Counterexample to claim C8: with `APP_ORIGIN` configured as
`https://example.com`, an upgrade whose Origin host equals its own Host
header (`myhost`) is still rejected — the host fallback is consulted
only when no origin is configured. -/
theorem originCheck_counterexample :
    normalizeSafeString "https://example.com" = "https://example.com" ∧
    parseUrlHost "https://myhost" = some "myhost" ∧
    normalizeSafeString "myhost" = "myhost" ∧
    upgradeOriginCheck "https://example.com" (some "https://myhost") "myhost"
      = false := by
  refine ⟨rfl, rfl, rfl, rfl⟩

/-- Claim C8 as amended: an absent or empty Origin header always passes
the origin check; with a configured origin, a nonempty Origin passes
exactly when it equals that origin verbatim; with no configured origin,
it passes exactly when the request carries a nonempty normalized Host
header equal to the parsed host of the Origin.  Failing requests are
answered 403. -/
theorem upgradeOriginCheck_cases (cfg host : String) :
    (upgradeOriginCheck cfg none host = true)
    ∧ (upgradeOriginCheck cfg (some "") host = true)
    ∧ (∀ o, o ≠ "" → normalizeSafeString cfg ≠ "" →
        (upgradeOriginCheck cfg (some o) host = true ↔
          o = normalizeSafeString cfg))
    ∧ (∀ o, o ≠ "" → normalizeSafeString cfg = "" →
        (upgradeOriginCheck cfg (some o) host = true ↔
          normalizeSafeString host ≠ "" ∧
            parseUrlHost o = some (normalizeSafeString host))) := by
  refine ⟨rfl, rfl, ?_, ?_⟩
  · intro o ho hcfg
    unfold upgradeOriginCheck isAllowedWsOrigin
    dsimp only
    rw [if_neg (by simp [ho]), if_pos hcfg]
    simp
  · intro o ho hcfg
    unfold upgradeOriginCheck isAllowedWsOrigin
    dsimp only
    rw [if_neg (by simp [ho]), if_neg (by simp [hcfg])]
    cases hh : normalizeSafeString host == ""
    · have hne : normalizeSafeString host ≠ "" := by simpa using hh
      rw [if_neg (by simp)]
      cases hp : parseUrlHost o with
      | none =>
        constructor
        · intro hc
          simp at hc
        · rintro ⟨-, hc⟩
          cases hc
      | some hstr =>
        constructor
        · intro hc
          have : hstr = normalizeSafeString host := by simpa using hc
          exact ⟨hne, by rw [this]⟩
        · rintro ⟨-, hc⟩
          injection hc with hc
          simp [hc]
    · have heq : normalizeSafeString host = "" := by simpa using hh
      rw [if_pos rfl]
      constructor
      · intro hc
        simp at hc
      · rintro ⟨hne, -⟩
        exact absurd heq hne

/-- Witness for claim C8 as amended, at an empty configured origin and
host `myhost`. -/
theorem upgradeOriginCheck_cases_witness :
    (upgradeOriginCheck "" none "myhost" = true)
    ∧ (upgradeOriginCheck "" (some "") "myhost" = true)
    ∧ (∀ o, o ≠ "" → normalizeSafeString "" ≠ "" →
        (upgradeOriginCheck "" (some o) "myhost" = true ↔
          o = normalizeSafeString ""))
    ∧ (∀ o, o ≠ "" → normalizeSafeString "" = "" →
        (upgradeOriginCheck "" (some o) "myhost" = true ↔
          normalizeSafeString "myhost" ≠ "" ∧
            parseUrlHost o = some (normalizeSafeString "myhost"))) :=
  upgradeOriginCheck_cases "" "myhost"

/-! ## Connection-count invariant -/

theorem connInv_register (m : List (String × Nat)) (ip : String)
    (h : ∀ e ∈ m, 1 ≤ e.2 ∧ e.2 ≤ WS_MAX_CONNECTIONS_PER_IP) :
    ∀ e ∈ (registerWsConnection m ip).1,
      1 ≤ e.2 ∧ e.2 ≤ WS_MAX_CONNECTIONS_PER_IP := by
  unfold registerWsConnection
  dsimp only
  by_cases hc : WS_MAX_CONNECTIONS_PER_IP ≤ (assocGet m ip).getD 0
  · rw [if_pos hc]
    exact h
  · rw [if_neg hc]
    intro e he
    rcases mem_assocSet e m ip _ he with rfl | he
    · dsimp only
      omega
    · exact h e he

theorem connInv_unregister (m : List (String × Nat)) (ip : String)
    (h : ∀ e ∈ m, 1 ≤ e.2 ∧ e.2 ≤ WS_MAX_CONNECTIONS_PER_IP) :
    ∀ e ∈ unregisterWsConnection m ip,
      1 ≤ e.2 ∧ e.2 ≤ WS_MAX_CONNECTIONS_PER_IP := by
  unfold unregisterWsConnection
  dsimp only
  by_cases hc : (assocGet m ip).getD 0 ≤ 1
  · rw [if_pos hc]
    intro e he
    exact h e (mem_assocDelete e m ip he)
  · rw [if_neg hc]
    intro e he
    rcases mem_assocSet e m ip _ he with rfl | he
    · dsimp only
      cases hg : assocGet m ip with
      | none =>
        rw [hg] at hc
        simp at hc
      | some v =>
        obtain ⟨e0, he0, hv⟩ := assocGet_mem m ip v hg
        have hb := h e0 he0
        rw [hv] at hb
        rw [hg] at hc
        simp only [Option.getD_some] at hc ⊢
        omega
    · exact h e he

theorem connInv_runConnOps (ops : List ConnOp) (m : List (String × Nat))
    (h : ∀ e ∈ m, 1 ≤ e.2 ∧ e.2 ≤ WS_MAX_CONNECTIONS_PER_IP) :
    ∀ e ∈ ops.foldl applyConnOp m,
      1 ≤ e.2 ∧ e.2 ≤ WS_MAX_CONNECTIONS_PER_IP := by
  induction ops generalizing m with
  | nil => exact h
  | cons op rest ih =>
    cases op with
    | reg ip => exact ih _ (connInv_register m ip h)
    | unreg ip => exact ih _ (connInv_unregister m ip h)

/-- Claim C10: every count the per-address connection map holds after
any sequence of register and unregister calls lies between 1 and the
ceiling of 5; a register call at the ceiling refuses and leaves the map
unchanged; an unregister call never stores a count of zero or less. -/
theorem wsConnCount_invariant (ops : List ConnOp) (m : List (String × Nat))
    (h : m = runConnOps ops) :
    (∀ e ∈ m, 1 ≤ e.2 ∧ e.2 ≤ WS_MAX_CONNECTIONS_PER_IP)
    ∧ (∀ ip, WS_MAX_CONNECTIONS_PER_IP ≤ (assocGet m ip).getD 0 →
        registerWsConnection m ip = (m, false))
    ∧ (∀ ip e, e ∈ unregisterWsConnection m ip →
        1 ≤ e.2 ∧ e.2 ≤ WS_MAX_CONNECTIONS_PER_IP) := by
  have hinv : ∀ e ∈ m, 1 ≤ e.2 ∧ e.2 ≤ WS_MAX_CONNECTIONS_PER_IP := by
    subst h
    exact connInv_runConnOps ops [] (by intro e he; simp at he)
  refine ⟨hinv, ?_, ?_⟩
  · intro ip hip
    unfold registerWsConnection
    dsimp only
    rw [if_pos hip]
  · intro ip e he
    exact connInv_unregister m ip hinv e he

def connOpsEx : List ConnOp :=
  [.reg "a", .reg "a", .reg "a", .reg "a", .reg "a", .reg "a",
   .unreg "a", .reg "b", .unreg "c"]

/-- Witness for claim C10 on a call sequence that saturates one address
and touches two others. -/
theorem wsConnCount_invariant_witness :
    (runConnOps connOpsEx = runConnOps connOpsEx) ∧
    ((∀ e ∈ runConnOps connOpsEx, 1 ≤ e.2 ∧ e.2 ≤ WS_MAX_CONNECTIONS_PER_IP)
    ∧ (∀ ip, WS_MAX_CONNECTIONS_PER_IP ≤ (assocGet (runConnOps connOpsEx) ip).getD 0 →
        registerWsConnection (runConnOps connOpsEx) ip = (runConnOps connOpsEx, false))
    ∧ (∀ ip e, e ∈ unregisterWsConnection (runConnOps connOpsEx) ip →
        1 ≤ e.2 ∧ e.2 ≤ WS_MAX_CONNECTIONS_PER_IP)) :=
  ⟨rfl, wsConnCount_invariant connOpsEx (runConnOps connOpsEx) rfl⟩

/-- Witness for claim C5 at a concrete registry and player. -/
theorem addPlayer_cases_witness :
    ((addPlayer rmEx2 "r1" ⟨"pD", "D", 4, "hub", some 1⟩).2 = false ↔
      assocGet rmEx2 "r1" = none ∨
      ∃ room, assocGet rmEx2 "r1" = some room ∧
        (MAX_PARTY_SIZE ≤ room.players.length ∨
          Player.id ⟨"pD", "D", 4, "hub", some 1⟩ ∈ room.players.map Player.id))
    ∧ ((addPlayer rmEx2 "r1" ⟨"pD", "D", 4, "hub", some 1⟩).2 = false →
        (addPlayer rmEx2 "r1" ⟨"pD", "D", 4, "hub", some 1⟩).1 = rmEx2)
    ∧ (∀ room, assocGet rmEx2 "r1" = some room →
        (addPlayer rmEx2 "r1" ⟨"pD", "D", 4, "hub", some 1⟩).2 = true →
        ∃ room', assocGet (addPlayer rmEx2 "r1"
            ⟨"pD", "D", 4, "hub", some 1⟩).1 "r1" = some room' ∧
          room'.players = room.players ++ [⟨"pD", "D", 4, "hub", some 1⟩] ∧
          (room.players = [] →
            room'.hostId = some (Player.id ⟨"pD", "D", 4, "hub", some 1⟩))) :=
  addPlayer_cases rmEx2 "r1" ⟨"pD", "D", 4, "hub", some 1⟩

def csEx : ClientState :=
  ⟨false, some "archive", roomEx.players, some "p9", "p1"⟩

/-- Witness for claim C9 at a concrete client state whose main host
sits in a different zone. -/
theorem updateZoneHostStatus_cases_witness :
    (csEx.isHost = true → updateZoneHostStatus csEx = false)
    ∧ (csEx.isHost = false → hostZoneOf csEx ≠ localZoneOf csEx →
        (updateZoneHostStatus csEx = true ↔
          ∃ p ∈ zoneHostCandidates csEx, p.id = csEx.playerId ∧
            ∀ q ∈ zoneHostCandidates csEx, strLe p.id q.id = true)) :=
  updateZoneHostStatus_cases csEx
